import Mathlib

/-!
Verification of the SSH-MCP connection core: a shallow embedding of
`src/ssh/ssh_manager.py` (the multi-alias connection multiplexer) and
`src/ssh_mcp/session_store.py` (the idle-session store), with theorems
settling the behavioural claims about path confinement, retry/reconnect,
cwd tracking, idempotent connect, lock ordering, session identity,
idle reaping, output formatting and disconnect framing.

Conventions of the embedding:
* Python dicts that map alias/key strings are embedded as association
  lists (first binding wins, as in `dict.get`); insertion order is kept.
* Network effects are recorded in an explicit event trace; the outcome of
  each transport interaction is supplied by an oracle argument.
* `asyncio.Lock` is not reentrant: a single task that awaits a lock it
  already holds blocks forever.  Operations therefore thread the set of
  locks held by the current task and return a `blocked` outcome when the
  code would re-acquire one of them.
* Exceptions are values of an `Err` type; `raise` becomes `Except.error`.
-/

namespace SSHMCP

/-! ## Association lists (Python `dict` with string keys) -/

def alookup {α : Type} : List (String × α) → String → Option α
  | [], _ => none
  | (k', v) :: rest, k => if k' = k then some v else alookup rest k

def aset {α : Type} : List (String × α) → String → α → List (String × α)
  | [], k, v => [(k, v)]
  | (k', v') :: rest, k, v =>
      if k' = k then (k, v) :: rest else (k', v') :: aset rest k v

def aremove {α : Type} (l : List (String × α)) (k : String) : List (String × α) :=
  l.filter (fun p => p.1 ≠ k)

@[simp] theorem alookup_nil {α : Type} (k : String) : alookup ([] : List (String × α)) k = none := rfl

theorem alookup_aset_self {α : Type} (l : List (String × α)) (k : String) (v : α) :
    alookup (aset l k v) k = some v := by
  induction l with
  | nil => simp [aset, alookup]
  | cons p rest ih =>
      by_cases h : p.1 = k
      · simp [aset, h, alookup]
      · simp [aset, h, alookup, ih]

theorem alookup_aset_other {α : Type} (l : List (String × α)) (k k' : String) (v : α)
    (hne : k' ≠ k) : alookup (aset l k v) k' = alookup l k' := by
  have hkk' : ¬ (k = k') := by intro h; exact hne h.symm
  induction l with
  | nil => simp [aset, alookup, hkk']
  | cons p rest ih =>
      by_cases h : p.1 = k
      · have hp : ¬ (p.1 = k') := by rw [h]; exact hkk'
        simp [aset, alookup, h, hkk', hp]
      · simp only [aset, if_neg h, alookup, ih]

theorem alookup_aremove_self {α : Type} (l : List (String × α)) (k : String) :
    alookup (aremove l k) k = none := by
  induction l with
  | nil => simp [aremove]
  | cons p rest ih =>
      simp only [aremove, ne_eq, List.filter_cons, decide_not] at ih ⊢
      by_cases h : p.1 = k
      · simpa [h] using ih
      · simp [h, alookup, ih]

theorem alookup_aremove_other {α : Type} (l : List (String × α)) (k k' : String)
    (hne : k' ≠ k) : alookup (aremove l k) k' = alookup l k' := by
  induction l with
  | nil => simp [aremove]
  | cons p rest ih =>
      simp only [aremove, ne_eq, List.filter_cons, decide_not] at ih ⊢
      have hne' : ¬ (k = k') := by intro hh; exact hne hh.symm
      by_cases h : p.1 = k
      · have hp : ¬ (p.1 = k') := by intro hh; exact hne (by rw [← hh, h])
        simp [h, alookup, hp, hne', ih]
      · by_cases h2 : p.1 = k'
        · simp [h, h2, alookup, hne]
        · simp [h, h2, alookup, ih]

/-! ## String primitives over the underlying character lists

The Lean core implementations of `String.startsWith`, `String.splitOn`,
`String.trim`, `String.take` and the string order run byte-position loops
that the kernel cannot evaluate, so the primitives below implement the
same (Python) semantics structurally over `String.data`; every definition
in this file then evaluates by plain reduction. -/

/-- `s.startswith(pre)`. -/
def strStartsWith (s pre : String) : Bool := pre.data.isPrefixOf s.data

/-- `s.endswith(suf)`. -/
def strEndsWith (s suf : String) : Bool := suf.data.isSuffixOf s.data

/-- `s[:n]` on characters. -/
def strTake (s : String) (n : Nat) : String := String.mk (s.data.take n)

/-- Python `str.strip()` (whitespace, both ends). -/
def pyStrip (s : String) : String :=
  String.mk (((s.data.dropWhile Char.isWhitespace).reverse.dropWhile Char.isWhitespace).reverse)

/-- Python `str.rstrip()`. -/
def rstrip (s : String) : String :=
  String.mk ((s.data.reverse.dropWhile Char.isWhitespace).reverse)

/-- `sep.join(parts)`. -/
def strIntercalate (sep : String) : List String → String
  | [] => ""
  | a :: rest => rest.foldl (fun acc x => acc ++ (sep ++ x)) a

/-- Splitter for `strSplitOn`; `fuel` only drives the structural
recursion and is chosen at least the input length plus one. -/
def splitOnAux (sep : List Char) : Nat → List Char → List Char → List (List Char)
  | _, [], acc => [acc.reverse]
  | 0, l, acc => [acc.reverse ++ l]
  | fuel + 1, c :: rest, acc =>
    if sep.isPrefixOf (c :: rest) then
      acc.reverse :: splitOnAux sep fuel (List.drop (sep.length - 1) rest) []
    else splitOnAux sep fuel rest (c :: acc)

/-- Python `s.split(sep)` for a nonempty separator (the semantics of
`str.split` and of `String.splitOn`): cut at each non-overlapping
occurrence, left to right. -/
def strSplitOn (s sep : String) : List String :=
  if sep = "" then [s]
  else (splitOnAux sep.data (s.data.length + 1) s.data []).map String.mk

/-- Lexicographic comparison of character lists by code point — the
comparison Python's `sorted` applies to strings. -/
def charListLe : List Char → List Char → Bool
  | [], _ => true
  | _ :: _, [] => false
  | a :: as, b :: bs => if a = b then charListLe as bs else decide (a < b)

def strLe (a b : String) : Bool := charListLe a.data b.data

/-- Propositional form of `strLe`, for `List.insertionSort`. -/
def strLeP (a b : String) : Prop := strLe a b = true

instance : DecidableRel strLeP := fun _ _ => inferInstanceAs (Decidable (_ = true))

theorem charListLe_total : ∀ a b : List Char,
    charListLe a b = true ∨ charListLe b a = true
  | [], _ => Or.inl rfl
  | _ :: _, [] => Or.inr rfl
  | a :: as, b :: bs => by
    by_cases h : a = b
    · subst h
      rcases charListLe_total as bs with h1 | h1
      · exact Or.inl (by simp [charListLe, h1])
      · exact Or.inr (by simp [charListLe, h1])
    · rcases lt_or_gt_of_ne h with hlt | hgt
      · exact Or.inl (by simp [charListLe, h, hlt])
      · refine Or.inr ?_
        have hne : ¬ (b = a) := fun hh => h hh.symm
        simp [charListLe, hne, hgt]

theorem charListLe_trans : ∀ a b c : List Char,
    charListLe a b = true → charListLe b c = true → charListLe a c = true
  | [], _, _, _, _ => rfl
  | _ :: _, [], _, h, _ => by simp [charListLe] at h
  | _ :: _, _ :: _, [], _, h2 => by simp [charListLe] at h2
  | a :: as, b :: bs, c :: cs, h1, h2 => by
    by_cases hab : a = b
    · subst hab
      by_cases hac : a = c
      · subst hac
        simp only [charListLe, if_pos rfl] at h1 h2 ⊢
        exact charListLe_trans as bs cs h1 h2
      · simp only [charListLe, if_pos rfl] at h1
        simp only [charListLe, if_neg hac] at h2 ⊢
        exact h2
    · have hlt : a < b := by simpa [charListLe, hab] using h1
      by_cases hbc : b = c
      · subst hbc
        simp [charListLe, hab]
        exact hlt
      · have hbc' : b < c := by simpa [charListLe, hbc] using h2
        have hac : a < c := lt_trans hlt hbc'
        have hne : ¬ (a = c) := ne_of_lt hac
        simp [charListLe, hne]
        exact hac

theorem charListLe_antisymm : ∀ a b : List Char,
    charListLe a b = true → charListLe b a = true → a = b
  | [], [], _, _ => rfl
  | [], _ :: _, _, h2 => by simp [charListLe] at h2
  | _ :: _, [], h1, _ => by simp [charListLe] at h1
  | a :: as, b :: bs, h1, h2 => by
    by_cases hab : a = b
    · subst hab
      simp only [charListLe, if_pos rfl] at h1 h2
      rw [charListLe_antisymm as bs h1 h2]
    · have hlt : a < b := by simpa [charListLe, hab] using h1
      have hba : ¬ (b = a) := fun hh => hab hh.symm
      have hgt : b < a := by simpa [charListLe, hba] using h2
      exact absurd hlt (not_lt_of_gt hgt)

instance : IsTotal String strLeP := ⟨fun a b => charListLe_total a.data b.data⟩

instance : IsTrans String strLeP := ⟨fun a b c => charListLe_trans a.data b.data c.data⟩

instance : IsAntisymm String strLeP :=
  ⟨fun a b h1 h2 => by
    have hd := charListLe_antisymm a.data b.data h1 h2
    cases a; cases b
    exact congrArg String.mk hd⟩

/-! ## POSIX path model (`os.path.join`, `os.path.normpath`, `os.path.abspath`) -/

/-- `os.path.join(a, b)` for two components (posixpath). -/
def pyJoin (a b : String) : String :=
  if strStartsWith b "/" then b
  else if a = "" ∨ strEndsWith a "/" then a ++ b
  else a ++ "/" ++ b

/-- One step of `posixpath.normpath`'s component loop.  `racc` is the
`new_comps` list in reverse (head = most recently appended). -/
def normpathStep (initialSlashes : Nat) (racc : List String) (comp : String) : List String :=
  if comp = "" ∨ comp = "." then racc
  else if comp ≠ ".." ∨ (initialSlashes = 0 ∧ racc = []) ∨ racc.head? = some ".." then
    comp :: racc
  else
    match racc with
    | _ :: rest => rest
    | [] => racc

/-- `posixpath.normpath`. -/
def normpath (p : String) : String :=
  if p = "" then "."
  else
    let initialSlashes : Nat :=
      if strStartsWith p "/" then
        if strStartsWith p "//" ∧ ¬ strStartsWith p "///" then 2 else 1
      else 0
    let comps := strSplitOn p "/"
    let newComps := (comps.foldl (normpathStep initialSlashes) []).reverse
    let joined := strIntercalate "/" newComps
    let out := String.mk (List.replicate initialSlashes '/') ++ joined
    if out = "" then "." else out

/-- `os.path.abspath`: join a relative path onto the process working
directory, then normalize.  `procCwd` models `os.getcwd()`. -/
def abspath (procCwd p : String) : String :=
  if strStartsWith p "/" then normpath p else normpath (pyJoin procCwd p)

/-! ## Core data of the multiplexer -/

/-- The credential tuple cached per alias (`new_creds` in `connect`). -/
structure Creds where
  host : String
  username : String
  port : Nat
  private_key_path : Option String
  password : Option String
  via : Option String
deriving DecidableEq, Repr

/-- `SSHManager._creds_equal`: field-by-field comparison of the six
credential fields. -/
def creds_equal (existing new : Creds) : Bool :=
  existing.host == new.host && existing.username == new.username &&
  existing.port == new.port && existing.private_key_path == new.private_key_path &&
  existing.password == new.password && existing.via == new.via

/-- Python exception classes raised by the transport during an attempt. -/
inductive Exc
  | connectionLost    -- asyncssh.ConnectionLost
  | brokenPipe        -- BrokenPipeError
  | connectionReset   -- ConnectionResetError
  | timedOut          -- asyncio.TimeoutError (from asyncio.wait_for)
  | otherExc          -- any other Exception
deriving DecidableEq, Repr

/-- Errors the manager itself raises (Python exception, by class). -/
inductive Err
  | permission            -- PermissionError from _validate_path
  | connectionErr         -- builtin ConnectionError
  | valueErr              -- ValueError
  | timeoutErr            -- TimeoutError raised on command deadline
  | runtimeErr            -- RuntimeError wrapper for unexpected failures
  | transport (e : Exc)   -- an uncaught transport exception propagating
deriving DecidableEq, Repr

/-- Network/teardown events, in program order. `handshake` covers a full
`asyncssh.connect` plus the initial `pwd`; `attempt` is one `conn.run` of
the wrapped command; `sftp` is a transfer-subchannel operation on the
validated path. -/
inductive Ev
  | handshake (al : String)
  | attempt (al : String) (wrapped : String)
  | sftp (al : String) (path : String)
  | close (al : String)
deriving DecidableEq, Repr

/-- State of one `SSHManager` (the connection multiplexer).
Live handles are numbered so that discarding/recreating one is visible. -/
structure Manager where
  connections : List (String × Nat)
  cwds : List (String × String)
  primary_alias : Option String
  credentials : List (String × Creds)
  allowed_root : String
  system_key_path : String
  system_key_exists : Bool
  next_handle : Nat
deriving DecidableEq, Repr

/-- Python string truthiness for `Optional[str]` values (`None` and `""`
are falsy). -/
def truthy : Option String → Bool
  | none => false
  | some t => t != ""

/-- Python falsiness of an `Optional[str]` (used for `not private_key_path
and not password`). -/
def pyFalsy : Option String → Bool
  | none => true
  | some s => s == ""

/-! ## Path validation (`SSHManager._validate_path`) -/

/-- `SSHManager._validate_path`: resolve a relative path against the
alias's tracked cwd, canonicalize, then do a pure prefix check of the
absolute path against `allowed_root`.  `procCwd` models the server
process's own working directory, consulted by `os.path.abspath` only when
the joined path is still relative. -/
def validate_path (st : Manager) (procCwd al path : String) : Except Err String :=
  let cwd := (alookup st.cwds al).getD "."
  let path1 := if ¬ strStartsWith path "/" then pyJoin cwd path else path
  let abs_path := abspath procCwd path1
  if ¬ strStartsWith abs_path st.allowed_root then .error .permission
  else .ok abs_path

/-! ## Per-alias lock ordering (`SSHManager._alias_lock_ctx`) -/

/-- `dict.fromkeys(aliases)` with an explicit seen-set accumulator:
de-duplicate keeping first occurrences. -/
def dedup_first_aux : List String → List String → List String
  | _, [] => []
  | seen, x :: xs =>
    if x ∈ seen then dedup_first_aux seen xs
    else x :: dedup_first_aux (x :: seen) xs

def dedup_first (l : List String) : List String := dedup_first_aux [] l

/-- `sorted(dict.fromkeys(aliases))`: the order in which
`_alias_lock_ctx` acquires per-alias locks. -/
def alias_lock_order (aliases : List String) : List String :=
  List.insertionSort strLeP (dedup_first aliases)

/-- Entering `_alias_lock_ctx` while the current task already holds
`held`.  `asyncio.Lock` is not reentrant, so acquiring a lock in `held`
blocks the task forever (`none`). -/
def acquire_ctx (held : List String) (aliases : List String) : Option (List String) :=
  let names := alias_lock_order aliases
  if names.any (fun a => held.contains a) then none
  else some (held ++ names)

/-! ## Connecting (`connect`, `_connect_internal`, `_ensure_connection`) -/

/-- Transport oracle: the result of dialing a given alias
(`asyncssh.connect` together with the initial `pwd`). -/
inductive ConnOutcome
  | success (pwdOut : String)
  | failure
deriving DecidableEq, Repr

/-- `SSHManager._ensure_connection`, parameterized by the dial function
so that the jump-host recursion in `_connect_internal` is structural on
its fuel: no-op when a live handle exists, transparent reconnect from
cached credentials otherwise, a connection error when neither exists. -/
def ensure_with
    (ci : Manager → String → (String → ConnOutcome) → Except Err String × Manager × List Ev)
    (st : Manager) (al : String) (oracle : String → ConnOutcome) :
    Except Err Unit × Manager × List Ev :=
  if (alookup st.connections al).isSome then (.ok (), st, [])
  else if (alookup st.credentials al).isSome then
    match ci st al oracle with
    | (.ok _, st1, evs) => (.ok (), st1, evs)
    | (.error e, st1, evs) => (.error e, st1, evs)
  else (.error .connectionErr, st, [])

/-- `SSHManager._connect_internal`: close any stale handle, re-dial using
the cached credentials (tunneled through the `via` alias after ensuring
it, when set) and on success record a fresh handle and reset the tracked
cwd from one `pwd` (`.strip()`-ed).  Any failure inside the dial is
wrapped as a connection error.  `fuel` bounds the depth of the `via`
jump-host chain. -/
def connect_internal : Nat → Manager → String → (String → ConnOutcome) →
    Except Err String × Manager × List Ev
  | 0, st, _, _ => (.error .connectionErr, st, [])
  | f + 1, st, al, oracle =>
    let closeEvs : List Ev :=
      match alookup st.connections al with
      | some _ => [.close al]
      | none => []
    let st1 : Manager := { st with connections := aremove st.connections al }
    match alookup st1.credentials al with
    | none => (.error .valueErr, st1, closeEvs)
    | some c =>
      let viaRes : Except Err Unit × Manager × List Ev :=
        match c.via with
        | some v =>
          match ensure_with (connect_internal f) st1 v oracle with
          | (.ok _, st2, evs) =>
            if (alookup st2.connections v).isSome then (.ok (), st2, evs)
            else (.error .connectionErr, st2, evs)
          | (.error _, st2, evs) => (.error .connectionErr, st2, evs)
        | none => (.ok (), st1, [])
      match viaRes with
      | (.error e, st2, evs) => (.error e, st2, closeEvs ++ evs)
      | (.ok _, st2, evs) =>
        match oracle al with
        | .failure => (.error .connectionErr, st2, closeEvs ++ evs ++ [.handshake al])
        | .success pwdOut =>
          let st3 : Manager := { st2 with
            connections := aset st2.connections al st2.next_handle,
            next_handle := st2.next_handle + 1,
            cwds := aset st2.cwds al (pyStrip pwdOut) }
          (.ok ("Connected to " ++ c.username ++ "@" ++ c.host ++ " (alias: " ++ al ++ ")"),
           st3, closeEvs ++ evs ++ [.handshake al])

/-- `SSHManager._ensure_connection` proper. -/
def ensure_connection (fuel : Nat) : Manager → String → (String → ConnOutcome) →
    Except Err Unit × Manager × List Ev :=
  ensure_with (connect_internal fuel)

/-- The credential tuple `connect` builds (`new_creds`), including the
fallback to the system key when neither a key path nor a password is
given. -/
def resolved_creds (st : Manager) (host username : String) (port : Nat)
    (private_key_path password : Option String) (via : Option String) : Creds :=
  let used_key_path :=
    if pyFalsy private_key_path ∧ pyFalsy password ∧ st.system_key_exists
    then some st.system_key_path else private_key_path
  { host, username, port, private_key_path := used_key_path, password, via }

/-- `SSHManager.connect` (body runs under the global table lock):
reject a self-referential `via`; build the resolved credential tuple;
return early when the alias is live with equal cached credentials;
otherwise cache the new credentials, dial, and update the primary
alias only on success. -/
def connect (st : Manager) (host username : String) (port : Nat)
    (private_key_path password : Option String) (al : String) (via : Option String)
    (oracle : String → ConnOutcome) (fuel : Nat) :
    Except Err String × Manager × List Ev :=
  if via = some al then (.error .valueErr, st, [])
  else
    let new_creds := resolved_creds st host username port private_key_path password via
    let reuse : Bool :=
      match alookup st.credentials al with
      | some existing => (alookup st.connections al).isSome && creds_equal existing new_creds
      | none => false
    if reuse then
      (.ok ("Already connected to " ++ username ++ "@" ++ host ++ " (alias: " ++ al ++ ")"),
       st, [])
    else
      let st1 : Manager := { st with credentials := aset st.credentials al new_creds }
      match connect_internal fuel st1 al oracle with
      | (.ok msg, st2, evs) =>
        let st3 : Manager :=
          if ¬ truthy st2.primary_alias then { st2 with primary_alias := some al }
          else if al = "primary" then { st2 with primary_alias := some "primary" }
          else st2
        (.ok msg, st3, evs)
      | (.error e, st2, evs) => (.error e, st2, evs)

/-- `SSHManager.disconnect` with an explicit alias (body runs under the
global table lock). -/
def disconnect_alias (st : Manager) (al : String) : String × Manager × List Ev :=
  match alookup st.connections al with
  | some _ =>
    let st1 : Manager := { st with connections := aremove st.connections al }
    let st2 : Manager :=
      match alookup st1.credentials al with
      | some _ => { st1 with credentials := aremove st1.credentials al }
      | none => st1
    let st3 : Manager :=
      if st2.primary_alias = some al
      then { st2 with primary_alias := (st2.connections.head?).map Prod.fst }
      else st2
    ("Disconnected \x27" ++ al ++ "\x27.", st3, [.close al])
  | none => ("No active connection for \x27" ++ al ++ "\x27.", st, [])

/-- `SSHManager._resolve_alias`: an explicit target wins, else the primary
alias, else a connection error. -/
def resolve_alias (st : Manager) (target : Option String) : Except Err String :=
  if truthy target then .ok (target.getD "")
  else if truthy st.primary_alias then .ok (st.primary_alias.getD "")
  else .error .connectionErr

/-! ## Command execution (`run_result`, `execute`) -/

def cwd_delimiter : String := "___MCP_CWD_CAPTURE___"

/-- The wrapped command `run_result` sends to the remote shell: a `cd` to
the tracked cwd, the caller's command, a sentinel echo and a trailing
`pwd`, preserving the command's exit code. -/
def wrap_command (cwd command : String) : String :=
  "cd \"" ++ cwd ++ "\" && ( " ++ command ++ " ); LAST_EXIT_CODE=$?; echo \"" ++
    cwd_delimiter ++ "\"; pwd; exit $LAST_EXIT_CODE"

/-- Python `sub in s` for a nonempty `sub`. -/
def strContains (s sub : String) : Bool := (strSplitOn s sub).length > 1

/-- The stdout post-processing of `run_result`: everything before the
first sentinel occurrence is the caller-visible stdout, and the stripped
text after it is the cwd candidate (adopted only when non-empty). -/
def process_run_stdout (stdout : String) : String × Option String :=
  if strContains stdout cwd_delimiter then
    let parts := strSplitOn stdout cwd_delimiter
    let clean := parts.headD ""
    let candidate := pyStrip ((parts.drop 1).headD "")
    (clean, if candidate ≠ "" then some candidate else none)
  else (stdout, none)

/-- The structured result dictionary returned by `run_result`. -/
structure RunRes where
  target : String
  stdout : String
  stderr : String
  exit_code : Int
  cwd : String
deriving DecidableEq, Repr

/-- Transport response to one attempt of the wrapped command: either a
completed process result or a raised exception (`.exc .timedOut` models
`asyncio.wait_for` expiring the 60-second deadline). -/
inductive RunOutcome
  | res (stdout stderr : String) (exit_status : Int)
  | exc (e : Exc)
deriving DecidableEq, Repr

/-- The exception classes caught and retried by `run_result`:
`except (asyncssh.ConnectionLost, BrokenPipeError, ConnectionResetError)`. -/
def runRetryExc : Exc → Bool
  | .connectionLost | .brokenPipe | .connectionReset => true
  | _ => false

/-- The exception classes caught and retried by `list_files`, `read_file`
and `write_file`: `except (asyncssh.ConnectionLost, BrokenPipeError)`. -/
def fileRetryExc : Exc → Bool
  | .connectionLost | .brokenPipe => true
  | _ => false

/-- Result of an operation as observed by the caller's task. `blocked`
means the task awaits a lock it already holds and never returns. -/
inductive Outcome (α : Type)
  | ok (a : α)
  | err (e : Err)
  | blocked
deriving DecidableEq, Repr

/-- `SSHManager.run_result`: resolve the target, enter the per-alias lock
context (blocking forever when this task already holds one of the locks),
then — under the lock — ensure connectivity, send the wrapped command,
strip the sentinel and adopt the reported cwd.  On a caught
lost-connection exception with `retry` set, discard the handle,
reconnect, and re-invoke `run_result` with `retry=False` — a call that
re-enters the lock context this task still holds.  `outcomes` supplies
the transport's response to each successive attempt of the wrapped
command. -/
def run_result (held : List String) (st : Manager) (command : String)
    (retry : Bool) (target : Option String) (outcomes : List RunOutcome)
    (oracle : String → ConnOutcome) (fuel : Nat) : Outcome RunRes × Manager × List Ev :=
  match resolve_alias st target with
  | .error e => (.err e, st, [])
  | .ok al =>
    match acquire_ctx held [al] with
    | none => (.blocked, st, [])
    | some held' =>
      match ensure_connection fuel st al oracle with
      | (.error e, st1, evs) => (.err e, st1, evs)
      | (.ok _, st1, evs0) =>
        if (alookup st1.connections al).isNone then (.err .connectionErr, st1, evs0)
        else
          let cwd := (alookup st1.cwds al).getD "."
          let wrapped := wrap_command cwd command
          match outcomes with
          | [] => (.err .runtimeErr, st1, evs0)
          | o :: rest =>
            let evs1 := evs0 ++ [Ev.attempt al wrapped]
            match o with
            | .res out errOut code =>
              let pr := process_run_stdout out
              let st2 : Manager :=
                match pr.2 with
                | some c2 => { st1 with cwds := aset st1.cwds al c2 }
                | none => st1
              (.ok { target := al, stdout := pr.1, stderr := errOut, exit_code := code,
                     cwd := (alookup st2.cwds al).getD cwd }, st2, evs1)
            | .exc e =>
              if runRetryExc e then
                if retry then
                  let st2 : Manager := { st1 with connections := aremove st1.connections al }
                  match ensure_connection fuel st2 al oracle with
                  | (.error e2, st3, evs2) => (.err e2, st3, evs1 ++ evs2)
                  | (.ok _, st3, evs2) =>
                    let r := run_result held' st3 command false (some al) rest oracle fuel
                    (r.1, r.2.1, evs1 ++ evs2 ++ r.2.2)
                else (.err (.transport e), st1, evs1)
              else if e = .timedOut then (.err .timeoutErr, st1, evs1)
              else (.err .runtimeErr, st1, evs1)

/-- The human-readable formatting of `SSHManager.execute` applied to a
structured command result: STDOUT/STDERR blocks joined by a blank line,
`(No output)` when both are empty, truncation past 4000 characters, and
an exit-code suffix appended last when the exit code is non-zero. -/
def execute_format (stdout stderr : String) (exit_code : Int) : String :=
  let output_parts : List String :=
    (if stdout ≠ "" then ["STDOUT:\n" ++ rstrip stdout] else []) ++
    (if stderr ≠ "" then ["STDERR:\n" ++ rstrip stderr] else [])
  let joined := strIntercalate "\n\n" output_parts
  let final0 := if joined = "" then "(No output)" else joined
  let final1 :=
    if final0.length > 4000 then strTake final0 4000 ++ "\n... [Output truncated]"
    else final0
  if exit_code ≠ 0 then final1 ++ "\n\n[Exit Code: " ++ toString exit_code ++ "]"
  else final1

/-- `SSHManager.execute`: `run_result` followed by `execute_format`. -/
def execute (held : List String) (st : Manager) (command : String)
    (retry : Bool) (target : Option String) (outcomes : List RunOutcome)
    (oracle : String → ConnOutcome) (fuel : Nat) : Outcome String × Manager × List Ev :=
  match run_result held st command retry target outcomes oracle fuel with
  | (.ok r, st1, evs) => (.ok (execute_format r.stdout r.stderr r.exit_code), st1, evs)
  | (.err e, st1, evs) => (.err e, st1, evs)
  | (.blocked, st1, evs) => (.blocked, st1, evs)

/-! ## File operations (`list_files`, `read_file`, `write_file`) -/

inductive FileOp
  | list
  | read
  | write
deriving DecidableEq, Repr

/-- Transport response to the SFTP action of a file operation; the
payload abstracts the transferred content (file text or a serialized
directory listing). -/
inductive FOutcome
  | ok (payload : String)
  | exc (e : Exc)
deriving DecidableEq, Repr

/-- Common skeleton of `list_files`, `read_file` and `write_file`:
resolve the target, enter the per-alias lock context, then — under the
lock — ensure connectivity, validate the path and perform the SFTP
action.  Only `asyncssh.ConnectionLost` and `BrokenPipeError` are caught;
with `retry` set they trigger discard-reconnect and a re-invocation of
the operation (a call that re-enters the lock context this task still
holds); every other exception propagates unchanged. -/
def file_op (op : FileOp) (held : List String) (st : Manager) (procCwd path : String)
    (retry : Bool) (target : Option String) (outcomes : List FOutcome)
    (oracle : String → ConnOutcome) (fuel : Nat) : Outcome String × Manager × List Ev :=
  match resolve_alias st target with
  | .error e => (.err e, st, [])
  | .ok al =>
    match acquire_ctx held [al] with
    | none => (.blocked, st, [])
    | some held' =>
      match ensure_connection fuel st al oracle with
      | (.error e, st1, evs) => (.err e, st1, evs)
      | (.ok _, st1, evs0) =>
        match validate_path st1 procCwd al path with
        | .error e => (.err e, st1, evs0)
        | .ok safe_path =>
          match outcomes with
          | [] => (.err .runtimeErr, st1, evs0)
          | o :: rest =>
            let evs1 := evs0 ++ [Ev.sftp al safe_path]
            match o with
            | .ok payload =>
              let result :=
                match op with
                | .write => "Successfully wrote to " ++ safe_path
                | _ => payload
              (.ok result, st1, evs1)
            | .exc e =>
              if fileRetryExc e then
                if retry then
                  let st2 : Manager := { st1 with connections := aremove st1.connections al }
                  match ensure_connection fuel st2 al oracle with
                  | (.error e2, st3, evs2) => (.err e2, st3, evs1 ++ evs2)
                  | (.ok _, st3, evs2) =>
                    let r := file_op op held' st3 procCwd path false (some al) rest oracle fuel
                    (r.1, r.2.1, evs1 ++ evs2 ++ r.2.2)
                else (.err (.transport e), st1, evs1)
              else (.err (.transport e), st1, evs1)

/-! ## Cross-alias streaming (`sync`) -/

/-- `SSHManager.sync`: acquires both aliases' locks through the shared
ordering context, ensures both connections, validates both paths, then
streams fixed-size chunks until the source read returns no data.
`chunks` is the sequence of byte counts the source read yields (a zero
ends the stream, as `if not data: break` does). -/
def sync (held : List String) (st : Manager)
    (source_node source_path dest_node dest_path procCwd : String)
    (chunks : List Nat) (oracle : String → ConnOutcome) (fuel : Nat) :
    Outcome String × Manager × List Ev :=
  match acquire_ctx held [source_node, dest_node] with
  | none => (.blocked, st, [])
  | some _ =>
    match ensure_connection fuel st source_node oracle with
    | (.error e, st1, evs) => (.err e, st1, evs)
    | (.ok _, st1, evs1) =>
      match ensure_connection fuel st1 dest_node oracle with
      | (.error e, st2, evs2) => (.err e, st2, evs1 ++ evs2)
      | (.ok _, st2, evs2) =>
        match validate_path st2 procCwd source_node source_path with
        | .error e => (.err e, st2, evs1 ++ evs2)
        | .ok src_safe =>
          match validate_path st2 procCwd dest_node dest_path with
          | .error e => (.err e, st2, evs1 ++ evs2)
          | .ok dest_safe =>
            let total := (chunks.takeWhile (fun c => c ≠ 0)).sum
            (.ok ("Successfully synced " ++ toString total ++ " bytes from " ++
                  source_node ++ " to " ++ dest_node ++ "."),
             st2, evs1 ++ evs2 ++ [Ev.sftp source_node src_safe, Ev.sftp dest_node dest_safe])

/-! ## Session store (`session_store.py`) -/

/-- One `SessionEntry`: the manager it owns (represented by the id the
store assigned at creation) and its last-accessed timestamp. -/
structure SessionEntry where
  managerId : Nat
  last_accessed : Int
deriving DecidableEq, Repr

structure SessionStore where
  sessions : List (String × SessionEntry)
  nextId : Nat
  timeout : Int
deriving DecidableEq, Repr

/-- `SessionStore.get`: fast path without the store lock (touch and
return the existing manager), slow path re-checks under the lock
(double-checked creation) before constructing a new manager with a fresh
timestamp.  `now` models `time.time()`. -/
def SessionStore.get (st : SessionStore) (now : Int) (key : String) : Nat × SessionStore :=
  match alookup st.sessions key with
  | some entry =>
    (entry.managerId,
     { st with sessions := aset st.sessions key { entry with last_accessed := now } })
  | none =>
    match alookup st.sessions key with
    | some entry =>
      (entry.managerId,
       { st with sessions := aset st.sessions key { entry with last_accessed := now } })
    | none =>
      (st.nextId,
       { st with sessions := aset st.sessions key ⟨st.nextId, now⟩, nextId := st.nextId + 1 })

/-- Store invariant: distinct keys, distinct manager ids, and every id is
below the creation counter. -/
def SessionStore.WF (st : SessionStore) : Prop :=
  (st.sessions.map Prod.fst).Nodup ∧
  (st.sessions.map (fun p => p.2.managerId)).Nodup ∧
  ∀ p ∈ st.sessions, p.2.managerId < st.nextId

/-! ## The idle reaper (`SessionStore._reap`) -/

/-- Events of one reaper sweep, in program order. -/
inductive REv
  | lockAcquire
  | lockRelease
  | removed (key : String)
  | disconnected (key : String)
deriving DecidableEq, Repr

/-- The first pass of `_reap` (under the store lock): the keys whose age
at scan time exceeds the timeout. -/
def reap_scan (timeout now : Int) (sessions : List (String × SessionEntry)) : List String :=
  (sessions.filter (fun p => now - p.2.last_accessed > timeout)).map Prod.fst

/-- One candidate of `_reap`'s second pass.  A concurrent `touch` may
refresh the entry between the scan and this step; then, under the store
lock, presence and age are re-verified (against the scan-time `now`)
before the entry is popped; the popped manager's disconnect runs after
the lock is released. -/
def reap_step (timeout now : Int) (touch : String → Option Int)
    (sessions : List (String × SessionEntry)) (key : String) :
    List (String × SessionEntry) × List REv :=
  let sessions1 :=
    match touch key, alookup sessions key with
    | some t, some e => aset sessions key { e with last_accessed := t }
    | _, _ => sessions
  match alookup sessions1 key with
  | some e =>
    if now - e.last_accessed > timeout then
      (aremove sessions1 key, [.lockAcquire, .removed key, .lockRelease, .disconnected key])
    else (sessions1, [.lockAcquire, .lockRelease])
  | none => (sessions1, [.lockAcquire, .lockRelease])

def reap_loop (timeout now : Int) (touch : String → Option Int) :
    List String → List (String × SessionEntry) → List (String × SessionEntry) × List REv
  | [], sessions => (sessions, [])
  | key :: rest, sessions =>
    let s1 := reap_step timeout now touch sessions key
    let s2 := reap_loop timeout now touch rest s1.1
    (s2.1, s1.2 ++ s2.2)

/-- `SessionStore._reap` (the adaptive-sleep computation aside): scan
under the lock, then process each expired candidate in turn. -/
def reap (timeout now : Int) (touch : String → Option Int)
    (sessions : List (String × SessionEntry)) : List (String × SessionEntry) × List REv :=
  let to_remove := reap_scan timeout now sessions
  let r := reap_loop timeout now touch to_remove sessions
  (r.1, [REv.lockAcquire, REv.lockRelease] ++ r.2)

/-- Trace discipline for a reaper sweep: lock events balance, a `removed`
only happens while the lock is held, and a `disconnected` only happens
with the lock depth at zero and only for a key previously removed. -/
def trace_ok : List REv → Nat → List String → Bool
  | [], _, _ => true
  | .lockAcquire :: rest, d, rem => trace_ok rest (d + 1) rem
  | .lockRelease :: rest, d, rem => decide (0 < d) && trace_ok rest (d - 1) rem
  | .removed k :: rest, d, rem => decide (0 < d) && trace_ok rest d (k :: rem)
  | .disconnected k :: rest, d, rem => decide (d = 0) && rem.contains k && trace_ok rest d rem

/-! ## Concrete fixtures shared by the claim witnesses -/

def sampleCreds : Creds :=
  { host := "h", username := "u", port := 22, private_key_path := none,
    password := some "p", via := none }

/-- A manager with one live alias `a`, confinement root `/`, tracked cwd `/`. -/
def mgrLive : Manager :=
  { connections := [("a", 0)], cwds := [("a", "/")], primary_alias := some "a",
    credentials := [("a", sampleCreds)], allowed_root := "/",
    system_key_path := "/data/id_ed25519", system_key_exists := false, next_handle := 1 }

/-- The same manager confined to root `/data` with tracked cwd `/data`. -/
def mgrData : Manager := { mgrLive with allowed_root := "/data", cwds := [("a", "/data")] }

/-- `mgrData` with the live handle dropped; credentials remain cached. -/
def mgrDataDisc : Manager := { mgrData with connections := [] }

/-- A transport oracle whose every dial succeeds, landing in `/root`. -/
def okOracle : String → ConnOutcome := fun _ => .success "/root\n"

/-! ## Claim theorems -/

/-- **C6.** For every host, username, port, key path and password, calling
`connect` with `via` equal to `alias` fails with an input error
(`ValueError`) before any credential caching or network activity, leaving
the multiplexer's state unchanged. -/
theorem C6_self_via_rejected (st : Manager) (host username : String) (port : Nat)
    (pk pw : Option String) (al : String) (oracle : String → ConnOutcome) (fuel : Nat) :
    connect st host username port pk pw al (some al) oracle fuel =
      (.error .valueErr, st, []) := by
  simp [connect]

/-- **C4.** `connect` is idempotent on identical inputs for a live alias:
when the cached credential tuple equals the newly resolved tuple
(`_creds_equal`) and the alias has a live handle, `connect` returns the
already-connected result, performs no handshake (empty event trace), and
leaves the whole manager state — connection table, credential table,
tracked cwds and primary alias — unchanged. -/
theorem C4_connect_idempotent (st : Manager) (host username : String) (port : Nat)
    (pk pw : Option String) (al : String) (via : Option String) (existing : Creds)
    (oracle : String → ConnOutcome) (fuel : Nat)
    (hvia : via ≠ some al)
    (hex : alookup st.credentials al = some existing)
    (heq : creds_equal existing (resolved_creds st host username port pk pw via) = true)
    (hlive : (alookup st.connections al).isSome) :
    connect st host username port pk pw al via oracle fuel =
      (.ok ("Already connected to " ++ username ++ "@" ++ host ++ " (alias: " ++ al ++ ")"),
       st, []) := by
  simp only [connect, if_neg hvia, hex, hlive, heq]
  simp

/-- Witness for C4: a concrete already-live alias with equal credentials. -/
theorem C4_witness :
    connect mgrLive "h" "u" 22 none (some "p") "a" none okOracle 3 =
      (.ok ("Already connected to u@h (alias: a)"), mgrLive, []) := by
  exact C4_connect_idempotent mgrLive "h" "u" 22 none (some "p") "a" none sampleCreds
    okOracle 3 (by decide) (by decide) (by decide) (by decide)

theorem intercalate_pair (s a b : String) : strIntercalate s [a, b] = a ++ (s ++ b) := rfl

theorem intercalate_single (s a : String) : strIntercalate s [a] = a := rfl

theorem string_append_ne_empty_left (a b : String) (h : a ≠ "") : a ++ b ≠ "" := by
  intro hc
  apply h
  have hdata := congrArg String.data hc
  simp only [String.data_append] at hdata
  have ha : a.data = [] := List.append_eq_nil.mp hdata |>.1
  cases a
  simp_all

theorem execute_format_both (out errOut : String) (h1 : out ≠ "") (h2 : errOut ≠ "") :
    execute_format out errOut 0 =
      (let blocks := ("STDOUT:\n" ++ rstrip out) ++ ("\n\n" ++ ("STDERR:\n" ++ rstrip errOut))
       if blocks.length > 4000 then strTake blocks 4000 ++ "\n... [Output truncated]"
       else blocks) := by
  have hne : ("STDOUT:\n" ++ rstrip out) ++ ("\n\n" ++ ("STDERR:\n" ++ rstrip errOut)) ≠ "" :=
    string_append_ne_empty_left _ _ (string_append_ne_empty_left "STDOUT:\n" _ (by decide))
  have hexit : ¬ ((0 : Int) ≠ 0) := fun h => h rfl
  simp only [execute_format, if_pos h1, if_pos h2, List.singleton_append,
    intercalate_pair, if_neg hne, if_neg hexit]

theorem execute_format_stdout_only (out : String) (h1 : out ≠ "") :
    execute_format out "" 0 =
      (let block := "STDOUT:\n" ++ rstrip out
       if block.length > 4000 then strTake block 4000 ++ "\n... [Output truncated]"
       else block) := by
  have hne : ("STDOUT:\n" ++ rstrip out) ≠ "" :=
    string_append_ne_empty_left "STDOUT:\n" _ (by decide)
  have hexit : ¬ ((0 : Int) ≠ 0) := fun h => h rfl
  have hfalse : ¬ (("" : String) ≠ "") := fun h => h rfl
  simp only [execute_format, if_pos h1, if_neg hfalse, List.append_nil,
    intercalate_single, if_neg hne, if_neg hexit]

theorem execute_format_stderr_only (errOut : String) (h2 : errOut ≠ "") :
    execute_format "" errOut 0 =
      (let block := "STDERR:\n" ++ rstrip errOut
       if block.length > 4000 then strTake block 4000 ++ "\n... [Output truncated]"
       else block) := by
  have hne : ("STDERR:\n" ++ rstrip errOut) ≠ "" :=
    string_append_ne_empty_left "STDERR:\n" _ (by decide)
  have hexit : ¬ ((0 : Int) ≠ 0) := fun h => h rfl
  have hfalse : ¬ (("" : String) ≠ "") := fun h => h rfl
  simp only [execute_format, if_neg hfalse, List.nil_append,
    intercalate_single, if_neg hne, if_neg hexit, if_pos h2]

/-- **C9.** The string `execute` builds from a command result is
`(No output)` when stdout and stderr are both empty; otherwise the
non-empty STDOUT/STDERR blocks joined by a blank line, truncated to the
first 4000 characters plus an `... [Output truncated]` marker when
longer; and whenever the exit code is non-zero, an `[Exit Code: N]`
suffix is appended after any truncation. -/
theorem C9_execute_output (out errOut : String) (code : Int) :
    (execute_format "" "" code =
      (if code ≠ 0 then "(No output)" ++ ("\n\n[Exit Code: " ++ toString code ++ "]")
       else "(No output)"))
    ∧ (code ≠ 0 → execute_format out errOut code =
        execute_format out errOut 0 ++ ("\n\n[Exit Code: " ++ toString code ++ "]"))
    ∧ (out ≠ "" → errOut ≠ "" → execute_format out errOut 0 =
        (let blocks := ("STDOUT:\n" ++ rstrip out) ++ ("\n\n" ++ ("STDERR:\n" ++ rstrip errOut))
         if blocks.length > 4000 then strTake blocks 4000 ++ "\n... [Output truncated]"
         else blocks))
    ∧ (out ≠ "" → execute_format out "" 0 =
        (let block := "STDOUT:\n" ++ rstrip out
         if block.length > 4000 then strTake block 4000 ++ "\n... [Output truncated]"
         else block))
    ∧ (errOut ≠ "" → execute_format "" errOut 0 =
        (let block := "STDERR:\n" ++ rstrip errOut
         if block.length > 4000 then strTake block 4000 ++ "\n... [Output truncated]"
         else block)) := by
  refine ⟨?_, ?_, ?_, ?_, ?_⟩
  · have hnil : strIntercalate "\n\n" [] = "" := rfl
    have hlen : ¬ (4000 < ("(No output)" : String).length) := by decide
    by_cases hc : code = 0
    · subst hc; simp [execute_format, hnil, hlen]
    · simp [execute_format, hnil, hlen, hc]
      have hlit : ("(No output)" : String) ++ "\n\n[Exit Code: " = "(No output)\n\n[Exit Code: " := by
        decide
      simp only [← String.append_assoc]
      rw [hlit]
  · intro hc
    simp [execute_format, hc, String.append_assoc]
  · intro h1 h2; exact execute_format_both out errOut h1 h2
  · intro h1; exact execute_format_stdout_only out h1
  · intro h2; exact execute_format_stderr_only errOut h2

/-- Witness for C9 at concrete inputs: empty output with a non-zero exit
code, and a two-block output. -/
theorem C9_witness :
    execute_format "" "" 3 = "(No output)\n\n[Exit Code: 3]"
    ∧ execute_format "hi \n" "oops" 0 = "STDOUT:\nhi\n\nSTDERR:\noops" := by
  constructor
  · exact ((C9_execute_output "" "" 3).1).trans (by decide)
  · exact ((C9_execute_output "hi \n" "oops" 0).2.2.1 (by decide) (by decide)).trans (by decide)

theorem alias_lock_order_singleton (a : String) : alias_lock_order [a] = [a] := rfl

/-- **C1 (amended).** For every file operation (list, read, write) on an
alias that holds a live handle, any path whose absolute resolution (after
joining a relative path with the alias's tracked cwd and canonicalizing)
fails the prefix comparison against the confinement root makes the
operation fail with a permission error, with no network I/O (empty event
trace) and no state change; the check is applied per alias through that
alias's tracked cwd.  (The unamended claim also asserted "no network
I/O" for aliases without a live handle, where an auto-reconnect in fact
precedes validation — see the counterexample.) -/
theorem C1_path_confinement (op : FileOp) (held : List String) (st : Manager)
    (procCwd al path : String) (outcomes : List FOutcome)
    (oracle : String → ConnOutcome) (fuel : Nat) (retry : Bool)
    (hal : al ≠ "") (hheld : al ∉ held)
    (hlive : (alookup st.connections al).isSome)
    (hesc : strStartsWith
        (abspath procCwd
          (if strStartsWith path "/" = false then pyJoin ((alookup st.cwds al).getD ".") path
           else path))
        st.allowed_root = false) :
    file_op op held st procCwd path retry (some al) outcomes oracle fuel =
      (.err .permission, st, []) := by
  have hres : resolve_alias st (some al) = .ok al := by
    simp [resolve_alias, truthy, hal]
  have hacq : acquire_ctx held [al] = some (held ++ [al]) := by
    simp [acquire_ctx, alias_lock_order_singleton, hheld]
  have hens : ensure_connection fuel st al oracle = (.ok (), st, []) := by
    simp [ensure_connection, ensure_with, hlive]
  have hval : validate_path st procCwd al path = .error .permission := by
    simp only [validate_path, Bool.not_eq_true]
    rw [hesc]
    simp
  simp only [file_op, hres, hacq, hens, hval]

/-- Witness for C1 (amended): a live alias confined to `/data` rejects
`/etc/passwd` with a permission error, an empty event trace, and no state
change. -/
theorem C1_witness :
    file_op .read [] mgrData "/srv" "/etc/passwd" true (some "a") [.ok "xx"] okOracle 3 =
      (.err .permission, mgrData, []) :=
  C1_path_confinement .read [] mgrData "/srv" "a" "/etc/passwd" [.ok "xx"] okOracle 3 true
    (by decide) (by decide) (by decide) (by decide)

/-- **C1 counterexample.** The claim as stated — "the operation fails
with a permission error and performs no network I/O" for *every* path
escaping the root — is false: on an alias whose handle was dropped but
whose credentials are cached, `read_file` runs `_ensure_connection`
*before* `_validate_path`, so a full reconnect handshake (network I/O)
happens and mutates the manager even though the path is then rejected. -/
theorem C1_counterexample :
    file_op .read [] mgrDataDisc "/srv" "/etc/passwd" true (some "a")
        [.ok "xx"] okOracle 3 =
      (.err .permission,
       { mgrDataDisc with
           connections := [("a", 1)]
           cwds := [("a", "/root")]
           next_handle := 2 },
       [Ev.handshake "a"]) := by
  decide

/-- **C2 (code bug).** On the first lost connection, `run_result`
discards the handle and transparently reconnects (fresh handle, handshake
event) — but the retry re-invokes `run_result` while the per-alias
`asyncio.Lock` is still held by the same task; the lock is not
reentrant, so the retry blocks forever instead of returning the second
attempt's result ((1) below).  A command exceeding the 60-second deadline
fails with a timeout error and is never retried ((2)).  Moreover the file
operations do not catch `ConnectionResetError` although `run_result`
does, contradicting "exactly the same lost-connection conditions" ((3)). -/
theorem C2_retry_code_bug :
    ((run_result [] mgrLive "ls" true none [.exc .connectionLost, .res "ok\n" "" 0]
        okOracle 3).1 = .blocked
      ∧ Ev.handshake "a" ∈ (run_result [] mgrLive "ls" true none
          [.exc .connectionLost, .res "ok\n" "" 0] okOracle 3).2.2)
    ∧ ((run_result [] mgrLive "sleep 100" true none [.exc .timedOut] okOracle 3).1
          = .err .timeoutErr
      ∧ Ev.handshake "a" ∉ (run_result [] mgrLive "sleep 100" true none
          [.exc .timedOut] okOracle 3).2.2)
    ∧ (runRetryExc .connectionReset = true
      ∧ fileRetryExc .connectionReset = false
      ∧ (file_op .read [] mgrLive "/srv" "/etc/hosts" true (some "a")
          [.exc .connectionReset, .ok "z"] okOracle 3).1
            = .err (.transport .connectionReset)) := by
  decide

theorem aremove_of_lookup_none {α : Type} (l : List (String × α)) (k : String)
    (h : alookup l k = none) : aremove l k = l := by
  induction l with
  | nil => rfl
  | cons p rest ih =>
      simp only [alookup] at h
      by_cases hp : p.1 = k
      · rw [if_pos hp] at h
        exact absurd h (by simp)
      · rw [if_neg hp] at h
        simp only [aremove, ne_eq, List.filter_cons, decide_not] at ih ⊢
        simp [hp, ih h]

/-- **C10.** `disconnect` on an alias with cached credentials but no live
handle returns the "No active connection" result, performs no teardown,
and leaves the whole manager state — credential table, tracked cwds and
primary alias — unchanged, so a later `_ensure_connection` on that alias
still transparently auto-reconnects from the cached credentials. -/
theorem C10_disconnect_no_live (st : Manager) (al : String) (c : Creds)
    (hcred : alookup st.credentials al = some c)
    (hnolive : alookup st.connections al = none)
    (hvia : c.via = none) :
    disconnect_alias st al = ("No active connection for \x27" ++ al ++ "\x27.", st, [])
    ∧ (∀ pwdOut : String,
        ensure_connection 1 st al (fun _ => .success pwdOut) =
          (.ok (),
           { st with connections := aset st.connections al st.next_handle,
                     next_handle := st.next_handle + 1,
                     cwds := aset st.cwds al (pyStrip pwdOut) },
           [Ev.handshake al])) := by
  constructor
  · simp [disconnect_alias, hnolive]
  · intro pwdOut
    have hrm : aremove st.connections al = st.connections :=
      aremove_of_lookup_none _ _ hnolive
    simp [ensure_connection, ensure_with, connect_internal, hnolive, hcred, hrm, hvia]

/-- Witness for C10: the concrete disconnected-with-credentials fixture. -/
theorem C10_witness :
    disconnect_alias mgrDataDisc "a" = ("No active connection for \x27a\x27.", mgrDataDisc, [])
    ∧ ensure_connection 1 mgrDataDisc "a" (fun _ => .success "/root\n") =
        (.ok (),
         { mgrDataDisc with connections := [("a", 1)], next_handle := 2,
                            cwds := [("a", "/root")] },
         [Ev.handshake "a"]) := by
  have h := C10_disconnect_no_live mgrDataDisc "a" sampleCreds
    (by decide) (by decide) (by decide)
  exact ⟨h.1, (h.2 "/root\n").trans (by rfl)⟩

theorem mem_dedup_first_aux (a : String) : ∀ (l seen : List String),
    a ∈ dedup_first_aux seen l ↔ a ∈ l ∧ a ∉ seen
  | [], seen => by simp [dedup_first_aux]
  | x :: xs, seen => by
    by_cases hx : x ∈ seen
    · rw [dedup_first_aux, if_pos hx, mem_dedup_first_aux a xs seen]
      by_cases hax : a = x
      · subst hax; simp [hx]
      · simp [hax]
    · rw [dedup_first_aux, if_neg hx, List.mem_cons, mem_dedup_first_aux a xs (x :: seen)]
      by_cases hax : a = x
      · subst hax; simp [hx]
      · simp [hax, List.mem_cons]

theorem mem_dedup_first (a : String) (l : List String) : a ∈ dedup_first l ↔ a ∈ l := by
  rw [dedup_first, mem_dedup_first_aux]; simp

theorem nodup_dedup_first_aux : ∀ (l seen : List String), (dedup_first_aux seen l).Nodup
  | [], _ => List.nodup_nil
  | x :: xs, seen => by
    by_cases hx : x ∈ seen
    · rw [dedup_first_aux, if_pos hx]
      exact nodup_dedup_first_aux xs seen
    · rw [dedup_first_aux, if_neg hx]
      refine List.nodup_cons.mpr ⟨?_, nodup_dedup_first_aux xs (x :: seen)⟩
      intro hmem
      exact ((mem_dedup_first_aux x xs (x :: seen)).mp hmem).2 (List.mem_cons_self x seen)

theorem nodup_dedup_first (l : List String) : (dedup_first l).Nodup :=
  nodup_dedup_first_aux l []

theorem mem_alias_lock_order (a : String) (l : List String) :
    a ∈ alias_lock_order l ↔ a ∈ l := by
  rw [alias_lock_order, (List.perm_insertionSort strLeP (dedup_first l)).mem_iff]
  exact mem_dedup_first a l

theorem nodup_alias_lock_order (l : List String) : (alias_lock_order l).Nodup :=
  ((List.perm_insertionSort strLeP (dedup_first l)).nodup_iff).mpr (nodup_dedup_first l)

theorem sorted_alias_lock_order (l : List String) :
    List.Sorted strLeP (alias_lock_order l) :=
  List.sorted_insertionSort strLeP (dedup_first l)

/-- **C5.** Every operation that acquires alias locks does so through
`_alias_lock_ctx`, whose acquisition list is the sorted, de-duplicated
alias list — a single globally consistent order, determined only by the
*set* of aliases and independent of call-site argument order; in
particular `sync(A, …, B, …)` and `sync(B, …, A, …)` acquire the same
locks in the same order (and hence enter the same `acquire_ctx`), which
is the deadlock-avoidance invariant for two concurrent swapped `sync`
calls. -/
theorem C5_lock_order_deterministic :
    (∀ xs ys : List String, (∀ a, a ∈ xs ↔ a ∈ ys) →
        alias_lock_order xs = alias_lock_order ys)
    ∧ (∀ A B : String, alias_lock_order [A, B] = alias_lock_order [B, A])
    ∧ (∀ (held : List String) (A B : String),
        acquire_ctx held [A, B] = acquire_ctx held [B, A])
    ∧ (∀ xs : List String, List.Sorted strLeP (alias_lock_order xs)
        ∧ (alias_lock_order xs).Nodup
        ∧ (∀ a, a ∈ alias_lock_order xs ↔ a ∈ xs)) := by
  have hgen : ∀ xs ys : List String, (∀ a, a ∈ xs ↔ a ∈ ys) →
      alias_lock_order xs = alias_lock_order ys := by
    intro xs ys hmem
    refine List.eq_of_perm_of_sorted ?_ (sorted_alias_lock_order xs) (sorted_alias_lock_order ys)
    refine (List.perm_ext_iff_of_nodup (nodup_alias_lock_order xs)
      (nodup_alias_lock_order ys)).mpr ?_
    intro a
    rw [mem_alias_lock_order, mem_alias_lock_order]
    exact hmem a
  have hpair : ∀ A B : String, alias_lock_order [A, B] = alias_lock_order [B, A] := by
    intro A B
    apply hgen
    intro a
    simp [List.mem_cons, or_comm]
  refine ⟨hgen, hpair, ?_, ?_⟩
  · intro held A B
    rw [acquire_ctx, acquire_ctx, hpair A B]
  · intro xs
    exact ⟨sorted_alias_lock_order xs, nodup_alias_lock_order xs,
      fun a => mem_alias_lock_order a xs⟩

/-- Witness for C5: concrete alias sets with swapped and duplicated
arguments produce the identical acquisition order. -/
theorem C5_witness :
    alias_lock_order ["b", "a", "b"] = alias_lock_order ["a", "b"]
    ∧ acquire_ctx [] ["b", "a"] = acquire_ctx [] ["a", "b"]
    ∧ alias_lock_order ["b", "a"] = ["a", "b"] := by
  refine ⟨?_, ?_, ?_⟩
  · refine C5_lock_order_deterministic.1 ["b", "a", "b"] ["a", "b"] ?_
    intro a
    simp [List.mem_cons]
    tauto
  · exact C5_lock_order_deterministic.2.2.1 [] "b" "a"
  · exact (C5_lock_order_deterministic.2.1 "b" "a").trans (by rfl)

/-- The cwd candidate `run_result` extracts: the text between the first
and second sentinel occurrences, `.strip()`-ed. -/
def cwd_candidate (out : String) : String :=
  pyStrip (((strSplitOn out cwd_delimiter).drop 1).headD "")

theorem process_run_stdout_spec (out : String) :
    process_run_stdout out =
      ((if (strSplitOn out cwd_delimiter).length > 1
        then (strSplitOn out cwd_delimiter).headD "" else out),
       (if (strSplitOn out cwd_delimiter).length > 1 ∧ cwd_candidate out ≠ ""
        then some (cwd_candidate out) else none)) := by
  unfold process_run_stdout strContains cwd_candidate
  by_cases h : (strSplitOn out cwd_delimiter).length > 1
  · by_cases hc : pyStrip (((strSplitOn out cwd_delimiter).drop 1).headD "") ≠ ""
    · simp [h, hc]
    · simp [h, hc]
  · simp [h]

/-- **C3.** `run_result` wraps the caller's command with a `cd` to the
tracked cwd, a sentinel echo and a trailing `pwd`; everything from the
first sentinel occurrence on is stripped from the stdout handed back; the
stripped text after the sentinel becomes the alias's tracked cwd only
when non-empty (an empty `pwd` capture leaves the previous cwd
unchanged); and concretely, after `run("cd /tmp && pwd")` on a fresh
alias the tracked cwd is `/tmp` and a subsequent relative read of `"x"`
on that alias resolves to `/tmp/x`. -/
theorem C3_cwd_tracking (held : List String) (st : Manager) (command al out errOut : String)
    (code : Int) (oracle : String → ConnOutcome) (fuel : Nat) (retry : Bool)
    (hal : al ≠ "") (hheld : al ∉ held)
    (hlive : (alookup st.connections al).isSome) :
    (let cwd0 := (alookup st.cwds al).getD "."
     let r := run_result held st command retry (some al) [.res out errOut code] oracle fuel
     let parts := strSplitOn out cwd_delimiter
     let cand := cwd_candidate out
     wrap_command cwd0 command =
         "cd \"" ++ cwd0 ++ "\" && ( " ++ command ++ " ); LAST_EXIT_CODE=$?; echo \"" ++
           cwd_delimiter ++ "\"; pwd; exit $LAST_EXIT_CODE"
     ∧ r.2.2 = [Ev.attempt al (wrap_command cwd0 command)]
     ∧ (∃ res : RunRes, r.1 = .ok res
         ∧ res.stdout = (if parts.length > 1 then parts.headD "" else out)
         ∧ res.stderr = errOut ∧ res.exit_code = code)
     ∧ alookup r.2.1.cwds al =
         (if parts.length > 1 ∧ cand ≠ "" then some cand else alookup st.cwds al)
     ∧ r.2.1.connections = st.connections ∧ r.2.1.credentials = st.credentials)
    ∧ (let r1 := run_result [] mgrLive "cd /tmp && pwd" true none
          [.res ("/tmp\n" ++ cwd_delimiter ++ "\n/tmp\n") "" 0] okOracle 3
       (∃ res : RunRes, r1.1 = .ok res ∧ res.stdout = "/tmp\n" ∧ res.cwd = "/tmp")
       ∧ alookup r1.2.1.cwds "a" = some "/tmp"
       ∧ validate_path r1.2.1 "/srv" "a" "x" = .ok "/tmp/x"
       ∧ file_op .read [] r1.2.1 "/srv" "x" true (some "a") [.ok "content"] okOracle 3
           = (.ok "content", r1.2.1, [Ev.sftp "a" "/tmp/x"])) := by
  constructor
  · obtain ⟨hv, hconn⟩ := Option.isSome_iff_exists.mp hlive
    have hres : resolve_alias st (some al) = .ok al := by
      simp [resolve_alias, truthy, hal]
    have hacq : acquire_ctx held [al] = some (held ++ [al]) := by
      simp [acquire_ctx, alias_lock_order_singleton, hheld]
    have hens : ensure_connection fuel st al oracle = (.ok (), st, []) := by
      simp [ensure_connection, ensure_with, hlive]
    simp only [run_result, hres, hacq, hens, hconn, process_run_stdout_spec]
    by_cases h1 : (strSplitOn out cwd_delimiter).length > 1
    · by_cases h2 : cwd_candidate out ≠ ""
      · simp [h1, h2, alookup_aset_self, wrap_command]
      · simp [h1, h2, wrap_command]
    · simp [h1, wrap_command]
  · refine ⟨⟨⟨"a", "/tmp\n", "", 0, "/tmp"⟩, by decide, by decide, by decide⟩,
      by decide, by rfl, by decide⟩

/-- Witness for C3: the empty-capture case — a sentinel followed by only
whitespace leaves the previously tracked cwd unchanged. -/
theorem C3_witness :
    (∃ res : RunRes,
      (run_result [] mgrLive "true" true (some "a")
          [.res ("out\n" ++ cwd_delimiter ++ "\n  \n") "" 0] okOracle 3).1 = .ok res
      ∧ res.stdout = "out\n")
    ∧ alookup (run_result [] mgrLive "true" true (some "a")
        [.res ("out\n" ++ cwd_delimiter ++ "\n  \n") "" 0] okOracle 3).2.1.cwds "a"
        = some "/" := by
  have h := (C3_cwd_tracking [] mgrLive "true" "a" ("out\n" ++ cwd_delimiter ++ "\n  \n") ""
    0 okOracle 3 true (by decide) (by decide) (by decide)).1
  obtain ⟨-, -, ⟨res, hres, hstdout, -, -⟩, hcwd, -, -⟩ := h
  refine ⟨⟨res, hres, ?_⟩, ?_⟩
  · rw [hstdout]; decide
  · rw [hcwd]; decide

theorem alookup_mem {α : Type} (l : List (String × α)) (k : String) (e : α)
    (h : alookup l k = some e) : (k, e) ∈ l := by
  induction l with
  | nil => simp [alookup] at h
  | cons p rest ih =>
      simp only [alookup] at h
      by_cases hp : p.1 = k
      · rw [if_pos hp] at h
        injection h with h
        have : p = (k, e) := by
          cases p
          simp only at hp h
          rw [hp, h]

        rw [← this]
        exact List.mem_cons_self _ _
      · rw [if_neg hp] at h
        exact List.mem_cons_of_mem _ (ih h)

theorem alookup_none_not_mem_keys {α : Type} (l : List (String × α)) (k : String)
    (h : alookup l k = none) : k ∉ l.map Prod.fst := by
  induction l with
  | nil => simp
  | cons p rest ih =>
      simp only [alookup] at h
      by_cases hp : p.1 = k
      · rw [if_pos hp] at h
        exact absurd h (by simp)
      · rw [if_neg hp] at h
        simp only [List.map_cons, List.mem_cons]
        rintro (hk | hk)
        · exact hp hk.symm
        · exact ih h hk

theorem aset_absent {α : Type} (l : List (String × α)) (k : String) (v : α)
    (h : alookup l k = none) : aset l k v = l ++ [(k, v)] := by
  induction l with
  | nil => rfl
  | cons p rest ih =>
      simp only [alookup] at h
      by_cases hp : p.1 = k
      · rw [if_pos hp] at h
        exact absurd h (by simp)
      · rw [if_neg hp] at h
        simp [aset, hp, ih h]

theorem keys_aset_present {α : Type} (l : List (String × α)) (k : String) (v e : α)
    (h : alookup l k = some e) : (aset l k v).map Prod.fst = l.map Prod.fst := by
  induction l with
  | nil => simp [alookup] at h
  | cons p rest ih =>
      simp only [alookup] at h
      by_cases hp : p.1 = k
      · simp [aset, hp]
      · rw [if_neg hp] at h
        simp [aset, hp, ih h]

theorem ids_aset_same (l : List (String × SessionEntry)) (k : String) (v e : SessionEntry)
    (h : alookup l k = some e) (hid : v.managerId = e.managerId) :
    (aset l k v).map (fun p => p.2.managerId) = l.map (fun p => p.2.managerId) := by
  induction l with
  | nil => simp [alookup] at h
  | cons p rest ih =>
      simp only [alookup] at h
      by_cases hp : p.1 = k
      · rw [if_pos hp] at h
        injection h with h
        simp [aset, hp, hid, h]
      · rw [if_neg hp] at h
        simp [aset, hp, ih h]

theorem mem_aset_cases {α : Type} (l : List (String × α)) (k : String) (v : α)
    (p : String × α) (h : p ∈ aset l k v) : p ∈ l ∨ p = (k, v) := by
  induction l with
  | nil =>
      simp only [aset, List.mem_singleton] at h
      exact Or.inr h
  | cons q rest ih =>
      by_cases hq : q.1 = k
      · simp only [aset, if_pos hq, List.mem_cons] at h
        rcases h with h | h
        · exact Or.inr h
        · exact Or.inl (List.mem_cons_of_mem _ h)
      · simp only [aset, if_neg hq, List.mem_cons] at h
        rcases h with h | h
        · exact Or.inl (h ▸ List.mem_cons_self _ _)
        · rcases ih h with h2 | h2
          · exact Or.inl (List.mem_cons_of_mem _ h2)
          · exact Or.inr h2

theorem alookup_ids_ne {l : List (String × SessionEntry)}
    (hnd : (l.map (fun p => p.2.managerId)).Nodup)
    {ka kb : String} {ea eb : SessionEntry}
    (ha : alookup l ka = some ea) (hb : alookup l kb = some eb) (hne : ka ≠ kb) :
    ea.managerId ≠ eb.managerId := by
  induction l with
  | nil => simp [alookup] at ha
  | cons p rest ih =>
      simp only [List.map_cons, List.nodup_cons] at hnd
      obtain ⟨hnotin, hnd'⟩ := hnd
      simp only [alookup] at ha hb
      by_cases hpa : p.1 = ka
      · rw [if_pos hpa] at ha
        injection ha with ha
        have hpb : ¬ (p.1 = kb) := by rw [hpa]; exact hne
        rw [if_neg hpb] at hb
        have hmem : (kb, eb) ∈ rest := alookup_mem _ _ _ hb
        intro hc
        apply hnotin
        rw [ha, hc]
        exact List.mem_map.mpr ⟨(kb, eb), hmem, rfl⟩
      · rw [if_neg hpa] at ha
        by_cases hpb : p.1 = kb
        · rw [if_pos hpb] at hb
          injection hb with hb
          have hmem : (ka, ea) ∈ rest := alookup_mem _ _ _ ha
          intro hc
          apply hnotin
          rw [hb, ← hc]
          exact List.mem_map.mpr ⟨(ka, ea), hmem, rfl⟩
        · rw [if_neg hpb] at hb
          exact ih hnd' ha hb

theorem get_lookup_self (st : SessionStore) (now : Int) (key : String) :
    alookup (st.get now key).2.sessions key = some ⟨(st.get now key).1, now⟩ := by
  unfold SessionStore.get
  cases h : alookup st.sessions key with
  | some entry => simp [h, alookup_aset_self]
  | none => simp [h, alookup_aset_self]

theorem get_lookup_other (st : SessionStore) (now : Int) (key k' : String) (hne : k' ≠ key) :
    alookup (st.get now key).2.sessions k' = alookup st.sessions k' := by
  unfold SessionStore.get
  cases h : alookup st.sessions key with
  | some entry => simp [h, alookup_aset_other _ _ _ _ hne]
  | none => simp [h, alookup_aset_other _ _ _ _ hne]

theorem get_fast_of_mem (st : SessionStore) (now : Int) (key : String) (e : SessionEntry)
    (h : alookup st.sessions key = some e) :
    (st.get now key).1 = e.managerId ∧ (st.get now key).2.nextId = st.nextId := by
  unfold SessionStore.get
  simp [h]

theorem get_WF (st : SessionStore) (now : Int) (key : String) (hwf : st.WF) :
    (st.get now key).2.WF := by
  obtain ⟨hk, hid, hlt⟩ := hwf
  unfold SessionStore.get
  cases h : alookup st.sessions key with
  | some e =>
    dsimp only
    refine ⟨?_, ?_, ?_⟩
    · rw [keys_aset_present _ _ _ _ h]; exact hk
    · rw [ids_aset_same st.sessions key ⟨e.managerId, now⟩ e h rfl]; exact hid
    · intro p hp
      rcases mem_aset_cases _ _ _ _ hp with hp | hp
      · exact hlt p hp
      · rw [hp]
        exact hlt (key, e) (alookup_mem _ _ _ h)
  | none =>
    dsimp only
    simp only [aset_absent _ _ _ h]
    refine ⟨?_, ?_, ?_⟩
    · simp only [List.map_append, List.map_cons, List.map_nil]
      rw [List.nodup_append]
      refine ⟨hk, List.nodup_singleton _, ?_⟩
      intro a ha hb
      simp only [List.mem_singleton] at hb
      exact alookup_none_not_mem_keys _ _ h (hb ▸ ha)
    · simp only [List.map_append, List.map_cons, List.map_nil]
      rw [List.nodup_append]
      refine ⟨hid, List.nodup_singleton _, ?_⟩
      intro a ha hb
      simp only [List.mem_singleton] at hb
      subst hb
      rcases List.mem_map.mp ha with ⟨p, hp, hpid⟩
      exact absurd (hpid ▸ hlt p hp) (lt_irrefl _)
    · intro p hp
      rcases List.mem_append.mp hp with hp | hp
      · exact Nat.lt_succ_of_lt (hlt p hp)
      · simp only [List.mem_singleton] at hp
        rw [hp]
        exact Nat.lt_succ_self _

/-- **C7.** Two `get`s of the same key with no intervening eviction
return the identical manager and create nothing new (the creation counter
is unchanged); `get`s of distinct keys always return distinct managers;
the entry holds the returned manager with a refreshed last-accessed
timestamp; and the store invariant (each manager owned by exactly one
key) is preserved. -/
theorem C7_session_identity (st : SessionStore) (t1 t2 : Int) (k1 k2 : String)
    (hwf : st.WF) :
    (k2 = k1 →
      ((st.get t1 k1).2.get t2 k2).1 = (st.get t1 k1).1
      ∧ ((st.get t1 k1).2.get t2 k2).2.nextId = (st.get t1 k1).2.nextId)
    ∧ (k2 ≠ k1 → ((st.get t1 k1).2.get t2 k2).1 ≠ (st.get t1 k1).1)
    ∧ alookup (st.get t1 k1).2.sessions k1 = some ⟨(st.get t1 k1).1, t1⟩
    ∧ ((st.get t1 k1).2.get t2 k2).2.WF := by
  have hself := get_lookup_self st t1 k1
  refine ⟨?_, ?_, hself, get_WF _ t2 k2 (get_WF st t1 k1 hwf)⟩
  · intro hk
    subst hk
    exact get_fast_of_mem (st.get t1 k2).2 t2 k2 _ hself
  · intro hk
    have hwf2 := get_WF (st.get t1 k1).2 t2 k2 (get_WF st t1 k1 hwf)
    have hself2 := get_lookup_self (st.get t1 k1).2 t2 k2
    have hother : alookup ((st.get t1 k1).2.get t2 k2).2.sessions k1
        = some ⟨(st.get t1 k1).1, t1⟩ := by
      rw [get_lookup_other _ t2 k2 k1 (fun hh => hk hh.symm)]
      exact hself
    exact alookup_ids_ne hwf2.2.1 hself2 hother hk

/-- Witness for C7: on an initially empty store, repeated `get` of one
key returns the same manager, and a different key gets a different one. -/
theorem C7_witness :
    (((⟨[], 0, 300⟩ : SessionStore).get 1 "k").2.get 2 "k").1
      = ((⟨[], 0, 300⟩ : SessionStore).get 1 "k").1
    ∧ (((⟨[], 0, 300⟩ : SessionStore).get 1 "k").2.get 2 "j").1
      ≠ ((⟨[], 0, 300⟩ : SessionStore).get 1 "k").1 := by
  have hwf : (⟨[], 0, 300⟩ : SessionStore).WF :=
    ⟨List.nodup_nil, List.nodup_nil, by simp⟩
  constructor
  · exact ((C7_session_identity ⟨[], 0, 300⟩ 1 2 "k" "k" hwf).1 rfl).1
  · exact (C7_session_identity ⟨[], 0, 300⟩ 1 2 "k" "j" hwf).2.1 (by decide)

theorem mem_eq_of_alookup_nodup {α : Type} (l : List (String × α)) (k : String) (e e' : α)
    (hk : (l.map Prod.fst).Nodup) (h : alookup l k = some e) (hm : (k, e') ∈ l) : e' = e := by
  induction l with
  | nil => simp at hm
  | cons p rest ih =>
      simp only [List.map_cons, List.nodup_cons] at hk
      obtain ⟨hout, hk'⟩ := hk
      simp only [alookup] at h
      rcases List.mem_cons.mp hm with hm | hm
      · have hp1 : p.1 = k := by rw [← hm]
        rw [if_pos hp1] at h
        injection h with h
        rw [← h, ← hm]
      · by_cases hp : p.1 = k
        · exfalso
          apply hout
          rw [hp]
          exact List.mem_map.mpr ⟨(k, e'), hm, rfl⟩
        · rw [if_neg hp] at h
          exact ih hk' h hm

theorem mem_reap_scan (timeout now : Int) (sessions : List (String × SessionEntry))
    (key : String) (e : SessionEntry)
    (hkeys : (sessions.map Prod.fst).Nodup) (hent : alookup sessions key = some e) :
    key ∈ reap_scan timeout now sessions ↔ now - e.last_accessed > timeout := by
  unfold reap_scan
  rw [List.mem_map]
  constructor
  · rintro ⟨p, hp, hfst⟩
    rw [List.mem_filter] at hp
    obtain ⟨hpmem, hpcond⟩ := hp
    have hpe : p.2 = e := by
      refine mem_eq_of_alookup_nodup sessions key e p.2 hkeys hent ?_
      have : p = (key, p.2) := by cases p; simp only at hfst ⊢; rw [hfst]
      rw [← this]
      exact hpmem
    rw [← hpe]
    exact of_decide_eq_true hpcond
  · intro hc
    exact ⟨(key, e), List.mem_filter.mpr ⟨alookup_mem _ _ _ hent, by simp [hc]⟩, rfl⟩

theorem nodup_reap_scan (timeout now : Int) (sessions : List (String × SessionEntry))
    (hkeys : (sessions.map Prod.fst).Nodup) :
    (reap_scan timeout now sessions).Nodup :=
  hkeys.sublist (List.Sublist.map Prod.fst (List.filter_sublist sessions))

theorem reap_step_evs (timeout now : Int) (touch : String → Option Int)
    (sessions : List (String × SessionEntry)) (key : String) :
    (reap_step timeout now touch sessions key).2
        = [.lockAcquire, .removed key, .lockRelease, .disconnected key]
    ∨ (reap_step timeout now touch sessions key).2 = [.lockAcquire, .lockRelease] := by
  unfold reap_step
  rcases htouch : touch key with _ | t <;> rcases hlk : alookup sessions key with _ | e <;>
    dsimp only
  · rcases hlk2 : alookup sessions key with _ | e2 <;> simp [hlk2]
    split <;> simp
  · rcases hlk2 : alookup sessions key with _ | e2 <;> simp [hlk2]
    split <;> simp
  · rcases hlk2 : alookup sessions key with _ | e2 <;> simp [hlk2]
    split <;> simp
  · rcases hlk2 : alookup (aset sessions key ⟨e.managerId, t⟩) key with _ | e2 <;> simp [hlk2]
    split <;> simp

theorem reap_step_sessions_other (timeout now : Int) (touch : String → Option Int)
    (sessions : List (String × SessionEntry)) (key k' : String) (hne : k' ≠ key) :
    alookup (reap_step timeout now touch sessions key).1 k' = alookup sessions k' := by
  unfold reap_step
  rcases htouch : touch key with _ | t <;> rcases hlk : alookup sessions key with _ | e <;>
    dsimp only
  · rcases hlk2 : alookup sessions key with _ | e2 <;> simp [hlk2]
    split <;> simp [alookup_aremove_other _ _ _ hne]
  · rcases hlk2 : alookup sessions key with _ | e2 <;> simp [hlk2]
    split <;> simp [alookup_aremove_other _ _ _ hne]
  · rcases hlk2 : alookup sessions key with _ | e2 <;> simp [hlk2]
    split <;> simp [alookup_aremove_other _ _ _ hne]
  · rcases hlk2 : alookup (aset sessions key ⟨e.managerId, t⟩) key with _ | e2 <;>
      simp only [hlk2]
    · simp [alookup_aset_other _ _ _ _ hne]
    · split
      · rw [alookup_aremove_other _ _ _ hne, alookup_aset_other _ _ _ _ hne]
      · rw [alookup_aset_other _ _ _ _ hne]

theorem reap_step_key (timeout now : Int) (touch : String → Option Int)
    (sessions : List (String × SessionEntry)) (key : String) (e : SessionEntry)
    (hent : alookup sessions key = some e) :
    (now - (touch key).getD e.last_accessed > timeout →
      alookup (reap_step timeout now touch sessions key).1 key = none
      ∧ (reap_step timeout now touch sessions key).2
          = [.lockAcquire, .removed key, .lockRelease, .disconnected key])
    ∧ (¬ (now - (touch key).getD e.last_accessed > timeout) →
      alookup (reap_step timeout now touch sessions key).1 key
          = some ⟨e.managerId, (touch key).getD e.last_accessed⟩
      ∧ (reap_step timeout now touch sessions key).2 = [.lockAcquire, .lockRelease]) := by
  unfold reap_step
  rcases htouch : touch key with _ | t
  · simp only [hent, Option.getD]
    constructor
    · intro hc
      rw [if_pos hc]
      exact ⟨alookup_aremove_self _ _, rfl⟩
    · intro hc
      rw [if_neg hc]
      exact ⟨hent, rfl⟩
  · simp only [hent, Option.getD, alookup_aset_self]
    constructor
    · intro hc
      rw [if_pos hc]
      exact ⟨alookup_aremove_self _ _, rfl⟩
    · intro hc
      rw [if_neg hc]
      exact ⟨alookup_aset_self _ _ _, rfl⟩

theorem reap_loop_not_mem (timeout now : Int) (touch : String → Option Int) :
    ∀ (ks : List String) (sessions : List (String × SessionEntry)) (key : String),
    key ∉ ks →
    alookup (reap_loop timeout now touch ks sessions).1 key = alookup sessions key
    ∧ REv.disconnected key ∉ (reap_loop timeout now touch ks sessions).2
  | [], sessions, key, _ => ⟨rfl, by simp [reap_loop]⟩
  | k :: ks, sessions, key, h => by
    have hne : key ≠ k := fun hh => h (hh ▸ List.mem_cons_self _ _)
    have h1 := reap_step_sessions_other timeout now touch sessions k key hne
    have hev := reap_step_evs timeout now touch sessions k
    have hrest := reap_loop_not_mem timeout now touch ks
      (reap_step timeout now touch sessions k).1 key
      (fun hh => h (List.mem_cons_of_mem _ hh))
    rw [reap_loop]
    dsimp only
    constructor
    · rw [hrest.1, h1]
    · intro hmem
      rcases List.mem_append.mp hmem with hm | hm
      · rcases hev with hev | hev
        · rw [hev] at hm
          simp at hm
          exact hne hm
        · rw [hev] at hm
          simp at hm
      · exact hrest.2 hm

theorem reap_loop_append (timeout now : Int) (touch : String → Option Int) :
    ∀ (as bs : List String) (sessions : List (String × SessionEntry)),
    reap_loop timeout now touch (as ++ bs) sessions =
      ((reap_loop timeout now touch bs (reap_loop timeout now touch as sessions).1).1,
       (reap_loop timeout now touch as sessions).2 ++
         (reap_loop timeout now touch bs (reap_loop timeout now touch as sessions).1).2)
  | [], bs, sessions => by simp [reap_loop]
  | a :: as, bs, sessions => by
    rw [List.cons_append, reap_loop, reap_loop]
    dsimp only
    rw [reap_loop_append timeout now touch as bs _]
    rw [List.append_assoc]

theorem trace_ok_block_removed (tail : List REv) (k : String) (rem : List String) :
    trace_ok ([.lockAcquire, .removed k, .lockRelease, .disconnected k] ++ tail) 0 rem
      = trace_ok tail 0 (k :: rem) := by
  simp [trace_ok]

theorem trace_ok_block_skip (tail : List REv) (rem : List String) :
    trace_ok ([.lockAcquire, .lockRelease] ++ tail) 0 rem = trace_ok tail 0 rem := by
  simp [trace_ok]

theorem trace_ok_reap_loop (timeout now : Int) (touch : String → Option Int) :
    ∀ (ks : List String) (sessions : List (String × SessionEntry)) (rem : List String),
    trace_ok ((reap_loop timeout now touch ks sessions).2) 0 rem = true
  | [], _, _ => rfl
  | k :: ks, sessions, rem => by
    rw [reap_loop]
    dsimp only
    rcases reap_step_evs timeout now touch sessions k with hev | hev <;> rw [hev]
    · rw [trace_ok_block_removed]
      exact trace_ok_reap_loop timeout now touch ks _ (k :: rem)
    · rw [trace_ok_block_skip]
      exact trace_ok_reap_loop timeout now touch ks _ rem

/-- **C8.** A session entry is removed by the reaper only when its age
exceeded the idle timeout at the initial scan *and* still exceeds it when
re-verified under the store lock just before removal — so a concurrent
touch landing between the scan and the removal (refreshing the timestamp
to within the timeout) prevents the eviction; the popped manager's
disconnect is emitted only after the entry has left the map and only
outside the store lock (`trace_ok`: lock events balance, removals happen
under the lock, each disconnect happens at lock depth zero for a key
already removed). -/
theorem C8_reaper (timeout now : Int) (touch : String → Option Int)
    (sessions : List (String × SessionEntry)) (key : String) (e : SessionEntry)
    (hkeys : (sessions.map Prod.fst).Nodup)
    (hent : alookup sessions key = some e) :
    (alookup (reap timeout now touch sessions).1 key = none
      ↔ (now - e.last_accessed > timeout
          ∧ now - (touch key).getD e.last_accessed > timeout))
    ∧ (REv.disconnected key ∈ (reap timeout now touch sessions).2
      ↔ (now - e.last_accessed > timeout
          ∧ now - (touch key).getD e.last_accessed > timeout))
    ∧ (¬ (now - e.last_accessed > timeout
          ∧ now - (touch key).getD e.last_accessed > timeout) →
        ∃ la : Int, alookup (reap timeout now touch sessions).1 key = some ⟨e.managerId, la⟩)
    ∧ trace_ok (reap timeout now touch sessions).2 0 [] = true := by
  have htrace : trace_ok (reap timeout now touch sessions).2 0 [] = true := by
    unfold reap
    dsimp only
    rw [trace_ok_block_skip]
    exact trace_ok_reap_loop timeout now touch _ sessions []
  by_cases hscan : now - e.last_accessed > timeout
  · have hmem : key ∈ reap_scan timeout now sessions :=
      (mem_reap_scan timeout now sessions key e hkeys hent).mpr hscan
    obtain ⟨l1, l2, hsplit⟩ := List.append_of_mem hmem
    have hnd : (l1 ++ key :: l2).Nodup := by
      have hh := nodup_reap_scan timeout now sessions hkeys
      rwa [hsplit] at hh
    have hnotl1 : key ∉ l1 := by
      intro hc
      rcases List.nodup_append.mp hnd with ⟨-, -, hdisj⟩
      exact hdisj hc (List.mem_cons_self _ _)
    have hnotl2 : key ∉ l2 := by
      rcases List.nodup_append.mp hnd with ⟨-, hnd2, -⟩
      exact (List.nodup_cons.mp hnd2).1
    have hpre := reap_loop_not_mem timeout now touch l1 sessions key hnotl1
    have hent1 : alookup (reap_loop timeout now touch l1 sessions).1 key = some e := by
      rw [hpre.1, hent]
    have hstep := reap_step_key timeout now touch
      (reap_loop timeout now touch l1 sessions).1 key e hent1
    have hloopkey : reap_loop timeout now touch [key] (reap_loop timeout now touch l1 sessions).1
        = ((reap_step timeout now touch (reap_loop timeout now touch l1 sessions).1 key).1,
           (reap_step timeout now touch (reap_loop timeout now touch l1 sessions).1 key).2) := by
      rw [reap_loop, reap_loop]
      simp
    have hpost := reap_loop_not_mem timeout now touch l2
      (reap_step timeout now touch (reap_loop timeout now touch l1 sessions).1 key).1 key hnotl2
    have hRkey : alookup (reap_loop timeout now touch
          (reap_scan timeout now sessions) sessions).1 key
        = alookup (reap_step timeout now touch
            (reap_loop timeout now touch l1 sessions).1 key).1 key := by
      rw [hsplit, show l1 ++ key :: l2 = l1 ++ ([key] ++ l2) from rfl,
        reap_loop_append, reap_loop_append]
      dsimp only
      rw [hloopkey]
      exact hpost.1
    have hRevs : (reap_loop timeout now touch (reap_scan timeout now sessions) sessions).2
        = (reap_loop timeout now touch l1 sessions).2
          ++ ((reap_step timeout now touch (reap_loop timeout now touch l1 sessions).1 key).2
              ++ (reap_loop timeout now touch l2
                    (reap_step timeout now touch
                      (reap_loop timeout now touch l1 sessions).1 key).1).2) := by
      rw [hsplit, show l1 ++ key :: l2 = l1 ++ ([key] ++ l2) from rfl,
        reap_loop_append, reap_loop_append]
      dsimp only
      rw [hloopkey]
    by_cases hre : now - (touch key).getD e.last_accessed > timeout
    · obtain ⟨hnone, hevs⟩ := hstep.1 hre
      refine ⟨?_, ?_, ?_, htrace⟩
      · unfold reap
        dsimp only
        rw [hRkey, hnone]
        simp [hscan, hre]
      · unfold reap
        dsimp only
        constructor
        · intro _
          exact ⟨hscan, hre⟩
        · intro _
          rw [hRevs, hevs]
          simp
      · intro hc
        exact absurd ⟨hscan, hre⟩ hc
    · obtain ⟨hsome, hevs⟩ := hstep.2 hre
      refine ⟨?_, ?_, ?_, htrace⟩
      · unfold reap
        dsimp only
        rw [hRkey, hsome]
        simp [hre]
      · unfold reap
        dsimp only
        constructor
        · intro hmem2
          exfalso
          simp only [List.cons_append, List.nil_append, List.mem_cons] at hmem2
          rcases hmem2 with hm | hm | hm
          · exact absurd hm (by simp)
          · exact absurd hm (by simp)
          · rw [hRevs] at hm
            rcases List.mem_append.mp hm with hm2 | hm2
            · exact hpre.2 hm2
            · rcases List.mem_append.mp hm2 with hm3 | hm3
              · rw [hevs] at hm3
                simp at hm3
              · exact hpost.2 hm3
        · rintro ⟨-, hc⟩
          exact absurd hc hre
      · intro _
        refine ⟨(touch key).getD e.last_accessed, ?_⟩
        unfold reap
        dsimp only
        rw [hRkey, hsome]
  · have hnmem : key ∉ reap_scan timeout now sessions := by
      intro hc
      exact hscan ((mem_reap_scan timeout now sessions key e hkeys hent).mp hc)
    have hloop := reap_loop_not_mem timeout now touch (reap_scan timeout now sessions)
      sessions key hnmem
    refine ⟨?_, ?_, ?_, htrace⟩
    · unfold reap
      dsimp only
      rw [hloop.1, hent]
      simp [hscan]
    · unfold reap
      dsimp only
      constructor
      · intro hmem2
        exfalso
        simp only [List.cons_append, List.nil_append, List.mem_cons] at hmem2
        rcases hmem2 with hm | hm | hm
        · exact absurd hm (by simp)
        · exact absurd hm (by simp)
        · exact hloop.2 hm
      · rintro ⟨hc, -⟩
        exact absurd hc hscan
    · intro _
      refine ⟨e.last_accessed, ?_⟩
      unfold reap
      dsimp only
      rw [hloop.1, hent]

/-- Witness for C8: with timeout 5 and scan time 10, the idle entry
(age 10) is removed and disconnected after removal; a touch at time 9
arriving between the scan and the re-check keeps it alive. -/
theorem C8_witness :
    (alookup (reap 5 10 (fun _ => none) [("k1", ⟨0, 0⟩), ("k2", ⟨1, 8⟩)]).1 "k1" = none
      ∧ REv.disconnected "k1" ∈ (reap 5 10 (fun _ => none) [("k1", ⟨0, 0⟩), ("k2", ⟨1, 8⟩)]).2)
    ∧ (∃ la : Int, alookup (reap 5 10 (fun k => if k = "k1" then some 9 else none)
          [("k1", ⟨0, 0⟩), ("k2", ⟨1, 8⟩)]).1 "k1" = some ⟨0, la⟩)
    ∧ trace_ok (reap 5 10 (fun _ => none) [("k1", ⟨0, 0⟩), ("k2", ⟨1, 8⟩)]).2 0 [] = true := by
  have h1 := C8_reaper 5 10 (fun _ => none) [("k1", ⟨0, 0⟩), ("k2", ⟨1, 8⟩)] "k1" ⟨0, 0⟩
    (by decide) (by decide)
  have h2 := C8_reaper 5 10 (fun k => if k = "k1" then some 9 else none)
    [("k1", ⟨0, 0⟩), ("k2", ⟨1, 8⟩)] "k1" ⟨0, 0⟩ (by decide) (by decide)
  refine ⟨⟨h1.1.mpr ⟨by decide, by decide⟩, h1.2.1.mpr ⟨by decide, by decide⟩⟩, ?_, h1.2.2.2⟩
  exact h2.2.2.1 (by decide)

end SSHMCP
